import Mathlib

/-!
Verification of the VCFMIX variant scanner (`src/vcfScan.py`).

The development shallowly embeds the Python source: raw text lines are
lists of characters, Python dictionaries are association lists whose
assignment semantics (`dupsert`) replaces a binding in place and appends a
missing key, Python sets are duplicate-free lists, Python `int` is `ℤ` and
Python `float` is modelled by `ℚ`.  The two external numeric routines the
source calls — `scipy.stats.binom_test` and `-math.log(p, 10)` — are taken
as oracle parameters (`test`, `neglog10`), so every theorem holds for any
behaviour of those routines.
-/

namespace VCFMIX

/-- Characters of one field or line of text, as read from the input files. -/
abbrev Str := List Char

/-- Read from an association list, mirroring a Python dictionary read. -/
def dlookup {α β : Type} [DecidableEq α] : List (α × β) → α → Option β
  | [], _ => none
  | (k, v) :: rest, key => if key = k then some v else dlookup rest key

/-- Write to an association list, mirroring a Python dictionary assignment:
the first binding of the key is replaced in place, a missing key is
appended (Python dictionaries preserve insertion order). -/
def dupsert {α β : Type} [DecidableEq α] : List (α × β) → α → β → List (α × β)
  | [], key, val => [(key, val)]
  | (k, v) :: rest, key, val =>
    if key = k then (key, val) :: rest else (k, v) :: dupsert rest key val

/-- Insert `x` into `l`, placing it before the first element `y` with
`le x y`. -/
def insertBy {α : Type} (le : α → α → Bool) (x : α) : List α → List α
  | [] => [x]
  | y :: ys => if le x y then x :: y :: ys else y :: insertBy le x ys

/-- Insertion sort with respect to the boolean comparison `le`; models the
sorting done by Python `sorted` / `list.sort` / pandas `sort_values` in the
source (for the inputs of interest the sort keys are distinct or the order
of ties is irrelevant, so the choice of algorithm does not matter). -/
def sortBy {α : Type} (le : α → α → Bool) (l : List α) : List α :=
  l.foldr (insertBy le) []

/-- Insertion into a Python `set`, modelled as a duplicate-free list. -/
def sadd {α : Type} [DecidableEq α] (s : List α) (x : α) : List α :=
  if x ∈ s then s else s ++ [x]

/-- Model of a Python value supplied for the `expectedErrorRate` argument
of `BinomialTest.__init__` (only the type of the value matters there). -/
inductive PyVal : Type
  | pfloat (q : ℚ)
  | pint (n : ℤ)
  | pbool (b : Bool)
  | pstr (s : Str)
  | pnone
deriving DecidableEq

/-- Exception raised by `BinomialTest.__init__`. -/
inductive PyErr : Type
  | typeError
deriving DecidableEq

/-- State of a `BinomialTest` object (`vcfScan.py`, lines 144-155).
The field `ncalls` instruments the model: it counts the invocations of the
external `stats.binom_test` routine, so that theorems can express that a
cached pair never re-runs the test.  The Python cache key is the string
`"{m},{d}"`, which encodes the pair `(m, d)` injectively, so the model
keys the cache by the pair itself. -/
structure BinomialTest where
  expectedErrorRate : ℚ
  p_values : List ((ℤ × ℤ) × ℚ)
  ncalls : ℕ
deriving DecidableEq

/-- Constructor `BinomialTest.__init__` (`vcfScan.py`, lines 151-155):
it raises `TypeError` unless the supplied rate is a float.  No range check
of any kind is performed on the value. -/
def BinomialTest.init (rate : PyVal) : Except PyErr BinomialTest :=
  match rate with
  | .pfloat q => .ok ⟨q, [], 0⟩
  | _ => .error .typeError

/-- Whether `BinomialTest.__init__` succeeds on the supplied value. -/
def initSucceeds (rate : PyVal) : Bool :=
  match BinomialTest.init rate with
  | .ok _ => true
  | .error _ => false

/-- Method `BinomialTest.compute` (`vcfScan.py`, lines 157-178).
`stats.binom_test` is modelled by the oracle `test`, and `-math.log(p, 10)`
by the oracle `neglog10`.  Returns the pair `(p_value, mlp)` and the updated
object state. -/
def BinomialTest.compute (test : ℤ → ℤ → ℚ) (neglog10 : ℚ → ℚ)
    (bt : BinomialTest) (minor_variant_count depth : ℤ) :
    (Option ℚ × Option ℚ) × BinomialTest :=
  if depth = 0 then ((none, none), bt)
  else if minor_variant_count = depth then ((some 1, some 0), bt)
  else
    let key := (minor_variant_count, depth)
    let bt1 :=
      match dlookup bt.p_values key with
      | some _ => bt
      | none =>
        { bt with
            p_values := dupsert bt.p_values key (test minor_variant_count depth),
            ncalls := bt.ncalls + 1 }
    match dlookup bt1.p_values key with
    | some p =>
      let mlp : ℚ := if p = 0 then 250 else neglog10 p
      ((some p, some mlp), bt1)
    | none => ((none, none), bt1)

/-- Region index of a `vcfScan` object: `roi2psn` maps a region name to its
set of genomic positions and `psn2roi` maps a position to the set of names
of the regions containing it (`vcfScan.py`, lines 214-215). -/
structure RoiState where
  roi2psn : List (String × List ℤ)
  psn2roi : List (ℤ × List String)
deriving DecidableEq

/-- Insertion of one nonzero position into both maps (`vcfScan.py`, lines
249-253): add the position to the region's set and the region name to the
position's set, creating the latter when absent. -/
def addRoiStep (st : RoiState) (roi_name : String) (p : ℤ) : RoiState :=
  let rset := sadd ((dlookup st.roi2psn roi_name).getD []) p
  let st1 : RoiState := { st with roi2psn := dupsert st.roi2psn roi_name rset }
  let pset :=
    if (dlookup st1.psn2roi p).isSome then
      sadd ((dlookup st1.psn2roi p).getD []) roi_name
    else [roi_name]
  { st1 with psn2roi := dupsert st1.psn2roi p pset }

/-- Loop of `vcfScan.add_roi` (`vcfScan.py`, lines 245-253): iterate over
the supplied positions, raising `ValueError` on a zero position.  The
returned boolean records whether the exception was raised; the state at
the moment of the raise is returned with it, because the Python object
keeps every mutation made before the exception. -/
def addRoiLoop (st : RoiState) (roi_name : String) : List ℤ → RoiState × Bool
  | [] => (st, false)
  | p :: rest =>
    if p = 0 then (st, true)
    else addRoiLoop (addRoiStep st roi_name p) roi_name rest

/-- Method `vcfScan.add_roi` (`vcfScan.py`, lines 223-253).  The first
statement `self.roi2psn[roi_name] = set([])` executes unconditionally: a
dictionary assignment never raises `KeyError`, so the `except KeyError`
branch whose comment marks the already-exists case is dead code, and an
existing region set is overwritten with the empty set before the loop. -/
def add_roi (st : RoiState) (roi_name : String) (roi_positions : List ℤ) :
    RoiState × Bool :=
  addRoiLoop { st with roi2psn := dupsert st.roi2psn roi_name [] }
    roi_name roi_positions

/-- One row of the region summary table consumed by
`lineageScan.f_statistics` (only the columns the method reads). -/
structure RegionSummary where
  mean_maf : ℚ
  total_depth : ℚ
  total_nonmajor_depth : ℚ
deriving DecidableEq

/-- Result dictionary of `lineageScan.f_statistics`. -/
structure FResult where
  mixture_quality : String
  F2 : Option ℚ
  F47 : Option ℚ
deriving DecidableEq

/-- Sum of a rational-valued column over the rows of a summary table. -/
def qsum (f : RegionSummary → ℚ) (l : List RegionSummary) : ℚ :=
  (l.map f).sum

/-- The region summaries sorted by `mean_maf`, descending
(`sort_values(by='mean_maf', ascending=False)`). -/
def sortedByMaf (region_stats : List RegionSummary) : List RegionSummary :=
  sortBy (fun a b => decide (b.mean_maf ≤ a.mean_maf)) region_stats

/-- Denominator of F2: total depth over the two regions of highest mean
maf (`sum(sorted_region_stats['total_depth'].head(2))`). -/
def f2Denominator (region_stats : List RegionSummary) : ℚ :=
  qsum (fun r => r.total_depth) ((sortedByMaf region_stats).take 2)

/-- Denominator of F47: total depth over the 47 regions of lowest mean maf
(`sum(sorted_region_stats['total_depth'].tail(47))`). -/
def f47Denominator (region_stats : List RegionSummary) : ℚ :=
  qsum (fun r => r.total_depth)
    ((sortedByMaf region_stats).drop ((sortedByMaf region_stats).length - 47))

/-- Numerator of F2: total nonmajor depth over the top two regions. -/
def f2Numerator (region_stats : List RegionSummary) : ℚ :=
  qsum (fun r => r.total_nonmajor_depth) ((sortedByMaf region_stats).take 2)

/-- Numerator of F47: total nonmajor depth over the bottom 47 regions. -/
def f47Numerator (region_stats : List RegionSummary) : ℚ :=
  qsum (fun r => r.total_nonmajor_depth)
    ((sortedByMaf region_stats).drop ((sortedByMaf region_stats).length - 47))

/-- Method `lineageScan.f_statistics` (`vcfScan.py`, lines 617-639),
modelled on an in-memory region summary table (the branch reloading the
table from a csv file is input handling outside the model: it produces the
same table).  pandas `head(2)` / `tail(47)` are `take 2` / `drop (n-47)`
of the descending-sorted table. -/
def f_statistics (region_stats : List RegionSummary) : FResult :=
  if region_stats.length < 58 then ⟨"bad", none, none⟩
  else if f2Denominator region_stats = 0 ∨ f47Denominator region_stats = 0 then
    ⟨"bad", none, none⟩
  else
    ⟨"OK",
     some (f2Numerator region_stats / f2Denominator region_stats),
     some (f47Numerator region_stats / f47Denominator region_stats)⟩

/-- The fixed IUPAC two-base ambiguity table of `FastaMixtureMarker`
(`vcfScan.py`, lines 57-64). -/
def iupac : List (Str × Char) :=
  [(['A', 'G'], 'r'), (['G', 'A'], 'R'),
   (['A', 'T'], 'w'), (['T', 'A'], 'W'),
   (['C', 'T'], 'y'), (['T', 'C'], 'Y'),
   (['A', 'C'], 'm'), (['C', 'A'], 'M'),
   (['C', 'G'], 's'), (['G', 'C'], 'S'),
   (['G', 'T'], 'k'), (['T', 'G'], 'K')]

/-- Configuration of a `FastaMixtureMarker` (`vcfScan.py`, lines 39-52). -/
structure MMCfg where
  mlp_cutoff : ℚ
  min_maf : ℚ
  clustering_cutoff : Option ℤ
  expectedErrorRate : ℚ
deriving DecidableEq

/-- One row of the mixed-bases csv table read by `mark_mixed` (the columns
the method reads; `none` models a NaN cell). -/
structure MixRow where
  pos : ℤ
  maf : Option ℚ
  mlp : Option ℚ
  nonmajor : ℤ
  depth : ℤ
  base_a : ℤ
  base_c : ℤ
  base_g : ℤ
  base_t : ℤ
deriving DecidableEq

/-- The two highest-depth bases of a row, in descending depth order
(`vcfScan.py`, lines 112-121).  pandas leaves the order of equal depths
unspecified for its default sort; the model uses a stable descending sort,
and no theorem below depends on the order of ties. -/
def top2 (r : MixRow) : Str :=
  let base : List (Char × ℤ) :=
    [('A', r.base_a), ('C', r.base_c), ('G', r.base_g), ('T', r.base_t)]
  ((sortBy (fun a b => decide (b.2 ≤ a.2)) base).take 2).map Prod.fst

/-- Candidate collection loop of `FastaMixtureMarker.mark_mixed`
(`vcfScan.py`, lines 99-122): for every row whose maf passes the minimum
(a NaN maf compares false), obtain the mlp (computing it through the
binomial tester when the cell is NaN), and when the mlp meets the cutoff
record `{pos - 1 ↦ iupac code}` in the `variants_to_update` dictionary.
Returns `none` when the Python code would raise (comparing a `None` mlp,
or an impossible `KeyError` in the iupac table). -/
def collectCandidates (cfg : MMCfg) (test : ℤ → ℤ → ℚ) (neglog10 : ℚ → ℚ) :
    List MixRow → BinomialTest → List (ℤ × Char) →
    Option (List (ℤ × Char) × BinomialTest)
  | [], bt, acc => some (acc, bt)
  | r :: rest, bt, acc =>
    match r.maf with
    | none => collectCandidates cfg test neglog10 rest bt acc
    | some m =>
      if m < cfg.min_maf then collectCandidates cfg test neglog10 rest bt acc
      else
        let computed :=
          match r.mlp with
          | some v => ((some v : Option ℚ), bt)
          | none =>
            let res := BinomialTest.compute test neglog10 bt r.nonmajor r.depth
            (res.1.2, res.2)
        match computed.1 with
        | none => none
        | some mlp =>
          if cfg.mlp_cutoff ≤ mlp then
            match dlookup iupac (top2 r) with
            | some code =>
              collectCandidates cfg test neglog10 rest computed.2
                (dupsert acc (r.pos - 1) code)
            | none => none
          else collectCandidates cfg test neglog10 rest computed.2 acc

/-- Python list item assignment `s[p] = c`: a negative index counts from
the end, an out-of-range index raises `IndexError` (modelled as `none`). -/
def pySet (s : List Char) (p : ℤ) (c : Char) : Option (List Char) :=
  if 0 ≤ p ∧ p < (s.length : ℤ) then some (s.set p.toNat c)
  else if 0 ≤ (s.length : ℤ) + p ∧ p < 0 then
    some (s.set ((s.length : ℤ) + p).toNat c)
  else none

/-- The candidate positions in ascending order
(`bases = sorted(variants_to_update.keys())`, `vcfScan.py` line 125). -/
def mmBases (d : List (ℤ × Char)) : List ℤ :=
  sortBy (fun a b => decide (a ≤ b)) (d.map Prod.fst)

/-- One iteration of the clustering-suppression loop (`vcfScan.py`, lines
127-131): candidate `i` is downgraded to `N` when its distance to its
predecessor or to its successor is at most the clustering cutoff. -/
def suppressStep (cc : ℤ) (bases : List ℤ) (d : List (ℤ × Char)) (i : ℕ) :
    List (ℤ × Char) :=
  let d1 := if bases.getD i 0 - bases.getD (i - 1) 0 ≤ cc
            then dupsert d (bases.getD i 0) 'N' else d
  if bases.getD (i + 1) 0 - bases.getD i 0 ≤ cc
  then dupsert d1 (bases.getD i 0) 'N' else d1

/-- The candidate dictionary after the clustering-suppression loop, which
runs over the interior indices `range(1, len(bases) - 1)` only, and only
when a clustering cutoff is configured (`vcfScan.py`, lines 126-131). -/
def mmSuppressed (cc : Option ℤ) (d : List (ℤ × Char)) : List (ℤ × Char) :=
  match cc with
  | none => d
  | some c =>
    (List.range' 1 ((mmBases d).length - 2)).foldl (suppressStep c (mmBases d)) d

/-- One iteration of the sequence-update loop (`vcfScan.py`, lines
133-134): write the (possibly suppressed) code of candidate `i` into the
sequence. -/
def writeStep (d2 : List (ℤ × Char)) (bases : List ℤ) (s : List Char) (i : ℕ) :
    Option (List Char) :=
  match dlookup d2 (bases.getD i 0) with
  | some c => pySet s (bases.getD i 0) c
  | none => none

/-- The returned data frame (`vcfScan.py`, lines 136-140): the candidate
dictionary, with suppressed (`N`) calls and position 0 removed when the
frame is non-empty. -/
def mmDf (d2 : List (ℤ × Char)) : List (ℤ × Char) :=
  if 0 < d2.length
  then (d2.filter (fun e => !(e.2 == 'N'))).filter (fun e => decide (0 < e.1))
  else d2

/-- The part of `FastaMixtureMarker.mark_mixed` that follows candidate
collection (`vcfScan.py`, lines 124-141): clustering suppression, the
sequence-update loop over the interior indices `range(1, len(bases) - 1)`,
and the final filtering of the returned table. -/
def mark_mixed_post (cc : Option ℤ) (seq : List Char) (d : List (ℤ × Char)) :
    Option (List (ℤ × Char) × List Char) :=
  match (List.range' 1 ((mmBases d).length - 2)).foldlM
      (writeStep (mmSuppressed cc d) (mmBases d)) seq with
  | none => none
  | some seq2 => some (mmDf (mmSuppressed cc d), seq2)

/-- `FastaMixtureMarker.mark_mixed` (`vcfScan.py`, lines 66-141) from the
point where the fasta sequence and the csv table have been read: candidate
collection with a fresh binomial tester, then suppression, sequence update
and table filtering. -/
def mark_mixed_model (cfg : MMCfg) (test : ℤ → ℤ → ℚ) (neglog10 : ℚ → ℚ)
    (seq : List Char) (rows : List MixRow) :
    Option (List (ℤ × Char) × List Char) :=
  match collectCandidates cfg test neglog10 rows ⟨cfg.expectedErrorRate, [], 0⟩ [] with
  | none => none
  | some (d, _) => mark_mixed_post cfg.clustering_cutoff seq d

/-- The characters Python `str.split()` treats as whitespace (the ones
that can occur in the modelled input lines). -/
def isWs (c : Char) : Bool :=
  c = ' ' || c = '\t' || c = '\n' || c = '\r'

/-- Helper of `pySplitWs`: accumulate the current word (reversed). -/
def wordsAux : Str → Str → List Str
  | [], acc => if acc = [] then [] else [acc.reverse]
  | c :: rest, acc =>
    if isWs c then
      if acc = [] then wordsAux rest [] else acc.reverse :: wordsAux rest []
    else wordsAux rest (c :: acc)

/-- Python `str.split()` with no separator: split on runs of whitespace,
ignoring leading and trailing whitespace (this also subsumes the
`.strip()` the source applies first). -/
def pySplitWs (s : Str) : List Str :=
  wordsAux s []

/-- Python `str.split(sep)` for a one-character separator: the result
always has one more element than the number of separators. -/
def pySplitOn (sep : Char) : Str → List Str
  | [] => [[]]
  | c :: rest =>
    if c = sep then [] :: pySplitOn sep rest
    else
      match pySplitOn sep rest with
      | t :: ts => (c :: t) :: ts
      | [] => [[c]]

/-- Value of a nonempty digit string. -/
def digitsVal (s : Str) : Option ℕ :=
  s.foldl
    (fun acc c =>
      match acc with
      | none => none
      | some n => if c.isDigit then some (n * 10 + (c.toNat - '0'.toNat)) else none)
    (some 0)

/-- Python `int(s)` on a whitespace-free field: an optional sign followed
by at least one digit; anything else raises `ValueError` (`none`). -/
def parsePyInt : Str → Option ℤ
  | [] => none
  | '-' :: rest =>
    if rest = [] then none else (digitsVal rest).map (fun n => -(n : ℤ))
  | '+' :: rest =>
    if rest = [] then none else (digitsVal rest).map (fun n => (n : ℤ))
  | s => (digitsVal s).map (fun n => (n : ℤ))

/-- The literal substring the scan looks for in every raw line. -/
def INDEL : Str := ['I', 'N', 'D', 'E', 'L']

/-- Whether `pat` occurs as a contiguous substring of the line
(Python `pat in line`). -/
def containsSub (pat : Str) : Str → Bool
  | [] => pat.isPrefixOf []
  | c :: rest => pat.isPrefixOf (c :: rest) || containsSub pat rest

/-- Hard errors that abort `vcfScan._parse` (uncaught Python exceptions),
plus `hang`, which marks the one input class on which the Python catch-up
loop does not terminate (a line position at or above the sentinel with the
sought queue exhausted). -/
inductive ScanErr : Type
  | unpackError
  | intError
  | infoError
  | missingTag
  | wrongCount
  | keyError
  | hang
deriving DecidableEq

/-- The sentinel `1e12` assigned when the sought queue is exhausted during
catch-up ("bigger than any genome; will never get there"); the float
`1e12` equals the integer `10^12` exactly. -/
def SENTINEL : ℤ := 10 ^ 12

/-- Scan configuration of a `vcfScan` object (`vcfScan.py`, lines
190-221), for the explicit-info-tag strategy: `infotag` is a literal tag
name, neither `auto` nor `AD` (the allele-depth and auto-detection
strategies are separate extraction paths not touched by the claims). -/
structure ScanCfg where
  infotag : Str
  report_minimum_maf : ℚ
  compute_pvalue : Bool
deriving DecidableEq

/-- One row of the result table `self.bases` (`vcfScan.py`, lines 472-478). -/
structure Row where
  roi_name : String
  pos : ℤ
  ref : Str
  depth : ℤ
  base_a : ℤ
  base_c : ℤ
  base_g : ℤ
  base_t : ℤ
  maf : Option ℚ
  mlp : Option ℚ
deriving DecidableEq

/-- Live state of one scan (`vcfScan._parse` local variables).
`gapWarnings` instruments the model: it counts the gap-observed warnings
actually emitted (`warning_emitted` suppresses all but the first). -/
structure ScanState where
  sought : List ℤ
  soughtNow : ℤ
  warned : Bool
  gapWarnings : ℕ
  rows : List Row
  bt : BinomialTest
  broke : Bool
deriving DecidableEq

/-- The catch-up loop (`vcfScan.py`, lines 387-392): pop sought positions
while the current one is at most `pos`; on exhaustion assign the sentinel.
When `pos` is at or above the sentinel and the queue runs out, the Python
loop re-raises `IndexError` forever: that divergence is `error hang`. -/
def catchUp (pos : ℤ) : List ℤ → Except ScanErr (List ℤ × ℤ)
  | [] => if SENTINEL ≤ pos then .error .hang else .ok ([], SENTINEL)
  | x :: rest => if x ≤ pos then catchUp pos rest else .ok (rest, x)

/-- The `key=value` info bag `dict(item.split("=") for item in
infos.split(";"))` (`vcfScan.py`, line 398): every item must split into
exactly two parts, later duplicate keys overwrite earlier ones. -/
def mkInfoDict (items : List Str) : Except ScanErr (List (Str × Str)) :=
  items.foldlM
    (fun d item =>
      match pySplitOn '=' item with
      | [k, v] => .ok (dupsert d k v)
      | _ => .error .infoError)
    []

/-- Depth extraction and row emission at a matched position
(`vcfScan.py`, lines 394-484), for the explicit-info-tag strategy
(`self.infotag` a plain tag, `self.fieldtag` `None`; the `AD`/`auto`
branches are other strategies and are never entered).  On integer-parse
failure of the tag the source warns and zero-fills; a tag with other than
four depths raises; rows are appended for every region containing the
matched position, subject to the minimum-maf report filter; finally the
next sought position is popped, or the loop breaks. -/
def matchBlock (cfg : ScanCfg) (test : ℤ → ℤ → ℚ) (neglog10 : ℚ → ℚ)
    (psn2roi : List (ℤ × List String)) (st : ScanState) (pos : ℤ)
    (ref altsF infosF : Str) : Except ScanErr ScanState :=
  let _alts := (pySplitOn ',' altsF).filter
    (fun i => i = ['A'] || i = ['T'] || i = ['C'] || i = ['G'])
  match mkInfoDict (pySplitOn ';' infosF) with
  | .error e => .error e
  | .ok infos =>
    match dlookup infos cfg.infotag with
    | none => .error .missingTag
    | some tagval =>
      let baseCounts : List ℤ :=
        match (pySplitOn ',' tagval).mapM parsePyInt with
        | some l => l
        | none => [0, 0, 0, 0]
      let baseFreqs := sortBy (fun a b => decide (b ≤ a)) baseCounts
      if baseFreqs.length = 4 then
        match baseCounts, baseFreqs with
        | [b0, b1, b2, b3], [_, f1, f2, f3] =>
          let depth := b0 + b1 + b2 + b3
          let pr :=
            if cfg.compute_pvalue then
              BinomialTest.compute test neglog10 st.bt (f1 + f2 + f3) depth
            else ((none, none), st.bt)
          let maf : Option ℚ :=
            if 0 < depth then some ((f1 : ℚ) / (depth : ℚ)) else none
          match dlookup psn2roi st.soughtNow with
          | none => .error .keyError
          | some rois =>
            let newRows := rois.foldl
              (fun rows roi_name =>
                let report_base :=
                  match maf with
                  | none => decide (cfg.report_minimum_maf ≤ 0)
                  | some m => decide (cfg.report_minimum_maf ≤ m)
                if report_base then
                  rows ++ [⟨roi_name, pos, ref, depth, b0, b1, b2, b3, maf, pr.1.2⟩]
                else rows)
              st.rows
            match st.sought with
            | [] => .ok { st with rows := newRows, bt := pr.2, broke := true }
            | x :: rest =>
              .ok { st with rows := newRows, bt := pr.2, sought := rest, soughtNow := x }
        | _, _ => .error .wrongCount
      else .error .wrongCount

/-- Handling of one line of the variant stream (`vcfScan.py`, lines
363-484): skip when the loop already broke, skip comment lines and lines
containing the substring INDEL anywhere, unpack the ten columns, parse the
position, catch up when the line has overtaken the sought position
(emitting the gap warning only once per scan), and run the match block
when the line position equals the sought one. -/
def processLine (cfg : ScanCfg) (test : ℤ → ℤ → ℚ) (neglog10 : ℚ → ℚ)
    (psn2roi : List (ℤ × List String)) (st : ScanState) (line : Str) :
    Except ScanErr ScanState :=
  if st.broke then .ok st
  else if line.head? = some '#' then .ok st
  else if containsSub INDEL line then .ok st
  else
    let fields := pySplitWs line
    -- ten-column unpack `chrom, pos, varID, ref, alts, score, filterx,
    -- infos, fields, sampleInfo = line.strip().split()`: exactly ten
    -- whitespace-separated columns, else `ValueError`; the columns used
    -- afterwards are 1 (pos), 3 (ref), 4 (alts), 7 (info).
    if fields.length = 10 then
      match parsePyInt (fields.getD 1 []) with
      | none => .error .intError
      | some pos =>
        let caught : Except ScanErr ScanState :=
          if st.soughtNow < pos then
            match catchUp pos st.sought with
            | .error e => .error e
            | .ok (q, sn) =>
              .ok { st with sought := q, soughtNow := sn, warned := true,
                            gapWarnings := st.gapWarnings + (if st.warned then 0 else 1) }
          else .ok st
        match caught with
        | .error e => .error e
        | .ok st1 =>
          if pos = st1.soughtNow then
            matchBlock cfg test neglog10 psn2roi st1 pos
              (fields.getD 3 []) (fields.getD 4 []) (fields.getD 7 [])
          else .ok st1
    else .error .unpackError

/-- The scan loop over the lines of the stream. -/
def scanLines (cfg : ScanCfg) (test : ℤ → ℤ → ℚ) (neglog10 : ℚ → ℚ)
    (psn2roi : List (ℤ × List String)) :
    List Str → ScanState → Except ScanErr ScanState
  | [], st => .ok st
  | l :: ls, st =>
    match processLine cfg test neglog10 psn2roi st l with
    | .error e => .error e
    | .ok st2 => scanLines cfg test neglog10 psn2roi ls st2

/-- Observable outcome of `vcfScan._parse`: its boolean return value, the
final `self.bases` table (`none` when the scan aborted on `EOFError`
before the table was built), and the number of gap warnings emitted. -/
structure ParseRes where
  success : Bool
  bases : Option (List Row)
  gapWarnings : ℕ
deriving DecidableEq

/-- Method `vcfScan._parse` (`vcfScan.py`, lines 327-524).  The stream is
the list of its lines (without trailing newlines) plus a truncation flag:
a truncated/corrupt file raises `EOFError` when the iteration reaches the
corrupt point, which the source catches and turns into `return False`
(leaving `self.bases` as `None`); an early `break` never reaches the
corrupt point.  An empty sought set makes the initial `popleft` raise
`IndexError`, caught by the outer handler, so the file is never read and
the scan succeeds with an empty table.  Hard errors propagate. -/
def runParse (cfg : ScanCfg) (test : ℤ → ℤ → ℚ) (neglog10 : ℚ → ℚ)
    (expectedErrorRate : ℚ) (psn2roi : List (ℤ × List String))
    (lines : List Str) (truncated : Bool) : Except ScanErr ParseRes :=
  match sortBy (fun a b => decide (a ≤ b)) (psn2roi.map Prod.fst) with
  | [] => .ok ⟨true, some [], 0⟩
  | k :: krest =>
    match scanLines cfg test neglog10 psn2roi lines
        ⟨krest, k, false, 0, [], ⟨expectedErrorRate, [], 0⟩, false⟩ with
    | .error e => .error e
    | .ok st =>
      if st.broke then .ok ⟨true, some st.rows, st.gapWarnings⟩
      else if truncated then .ok ⟨false, none, st.gapWarnings⟩
      else .ok ⟨true, some st.rows, st.gapWarnings⟩

/-- Method `vcfScan.parse` (`vcfScan.py`, lines 310-325): it sets the guid,
invokes `self._parse(vcffile)` and discards its return value; the function
then falls off its end, so Python returns `None` (modelled `none`) — never
the boolean `_parse` produced.  Uncaught exceptions still propagate. -/
def parse (cfg : ScanCfg) (test : ℤ → ℤ → ℚ) (neglog10 : ℚ → ℚ)
    (expectedErrorRate : ℚ) (psn2roi : List (ℤ × List String))
    (lines : List Str) (truncated : Bool) : Except ScanErr (Option Bool) :=
  match runParse cfg test neglog10 expectedErrorRate psn2roi lines truncated with
  | .error e => .error e
  | .ok _ => .ok none

/-- A line the scan loop can always process without a hard error: a
comment line, a line containing INDEL (both skipped), or a line with
exactly ten whitespace-separated columns whose position column is an
integer below the catch-up sentinel. -/
def lineWF (line : Str) : Bool :=
  if line.head? = some '#' then true
  else if containsSub INDEL line then true
  else
    if (pySplitWs line).length = 10 then
      match parsePyInt ((pySplitWs line).getD 1 []) with
      | some pos => decide (pos < SENTINEL)
      | none => false
    else false

/-- The genomic position a line contributes to the scan (`none` for
comment, INDEL-containing or malformed lines, which contribute nothing). -/
def linePos (line : Str) : Option ℤ :=
  if line.head? = some '#' then none
  else if containsSub INDEL line then none
  else
    if (pySplitWs line).length = 10 then parsePyInt ((pySplitWs line).getD 1 [])
    else none

/-- Invariant of a scan in which no processed line carries a sought
position: no rows are emitted, the loop never breaks, the current sought
position is an original key or the sentinel, the queue holds original
keys, and the warning counter matches the warning flag. -/
def ScanInv (S : List ℤ) (st : ScanState) : Prop :=
  st.rows = [] ∧ st.broke = false ∧
  (st.soughtNow ∈ S ∨ st.soughtNow = SENTINEL) ∧
  (∀ x ∈ st.sought, x ∈ S) ∧
  st.gapWarnings = (if st.warned then 1 else 0)

/-! General lemmas about the dictionary, set and sorting models. -/

theorem dlookup_dupsert {α β : Type} [DecidableEq α]
    (d : List (α × β)) (k : α) (v : β) (k2 : α) :
    dlookup (dupsert d k v) k2 = if k2 = k then some v else dlookup d k2 := by
  induction d with
  | nil => simp [dupsert, dlookup]
  | cons a rest ih =>
    obtain ⟨ak, av⟩ := a
    simp only [dupsert]
    by_cases hk : k = ak
    · rw [if_pos hk]
      subst hk
      by_cases h2 : k2 = k
      · subst h2; simp [dlookup]
      · simp [dlookup, h2]
    · rw [if_neg hk]
      by_cases h2 : k2 = ak
      · subst h2
        have hne : ¬ k2 = k := fun h => hk h.symm
        simp [dlookup, hne]
      · simp [dlookup, h2, ih]

theorem dlookup_isSome_iff {α β : Type} [DecidableEq α]
    (d : List (α × β)) (k : α) :
    (dlookup d k).isSome = true ↔ k ∈ d.map Prod.fst := by
  induction d with
  | nil => simp [dlookup]
  | cons a rest ih =>
    obtain ⟨ak, av⟩ := a
    by_cases h : k = ak
    · subst h; simp [dlookup]
    · simp [dlookup, h, ih]

theorem map_fst_dupsert_of_mem {α β : Type} [DecidableEq α]
    {d : List (α × β)} {k : α} (v : β) (h : k ∈ d.map Prod.fst) :
    (dupsert d k v).map Prod.fst = d.map Prod.fst := by
  induction d with
  | nil => simp at h
  | cons a rest ih =>
    obtain ⟨ak, av⟩ := a
    simp only [dupsert]
    by_cases hk : k = ak
    · rw [if_pos hk]; subst hk; simp
    · rw [if_neg hk]
      simp only [List.map, List.map_cons] at h ⊢
      rcases List.mem_cons.mp h with h1 | h1
      · exact absurd h1 hk
      · rw [ih h1]

theorem insertBy_perm {α : Type} (le : α → α → Bool) (x : α) (l : List α) :
    (insertBy le x l).Perm (x :: l) := by
  induction l with
  | nil => simp [insertBy]
  | cons y ys ih =>
    simp only [insertBy]
    split
    · exact List.Perm.refl _
    · exact (ih.cons y).trans (List.Perm.swap x y ys)

theorem sortBy_perm {α : Type} (le : α → α → Bool) (l : List α) :
    (sortBy le l).Perm l := by
  induction l with
  | nil => simp [sortBy]
  | cons x xs ih =>
    have hs : sortBy le (x :: xs) = insertBy le x (sortBy le xs) := rfl
    rw [hs]
    exact (insertBy_perm le x (sortBy le xs)).trans (ih.cons x)

theorem sortBy_length {α : Type} (le : α → α → Bool) (l : List α) :
    (sortBy le l).length = l.length :=
  (sortBy_perm le l).length_eq

theorem mem_sortBy {α : Type} (le : α → α → Bool) (l : List α) (x : α) :
    x ∈ sortBy le l ↔ x ∈ l :=
  (sortBy_perm le l).mem_iff

theorem sortBy_nodup {α : Type} (le : α → α → Bool) {l : List α}
    (h : l.Nodup) : (sortBy le l).Nodup :=
  ((sortBy_perm le l).nodup_iff).mpr h

theorem qsum_nonneg (f : RegionSummary → ℚ) (l : List RegionSummary)
    (h : ∀ r ∈ l, 0 ≤ f r) : 0 ≤ qsum f l := by
  refine List.sum_nonneg ?_
  intro x hx
  obtain ⟨r, hr, rfl⟩ := List.mem_map.mp hx
  exact h r hr

theorem qsum_le_qsum (f g : RegionSummary → ℚ) (l : List RegionSummary)
    (h : ∀ r ∈ l, f r ≤ g r) : qsum f l ≤ qsum g l :=
  List.sum_le_sum h

/-! Lemmas about `BinomialTest.compute`. -/

theorem compute_depth_zero (test : ℤ → ℤ → ℚ) (neglog10 : ℚ → ℚ)
    (bt : BinomialTest) (m d : ℤ) (h : d = 0) :
    BinomialTest.compute test neglog10 bt m d = ((none, none), bt) := by
  simp [BinomialTest.compute, h]

theorem compute_all_minor (test : ℤ → ℤ → ℚ) (neglog10 : ℚ → ℚ)
    (bt : BinomialTest) (m d : ℤ) (hd : d ≠ 0) (hm : m = d) :
    BinomialTest.compute test neglog10 bt m d = ((some 1, some 0), bt) := by
  simp [BinomialTest.compute, hd, hm]

theorem compute_cache_hit (test : ℤ → ℤ → ℚ) (neglog10 : ℚ → ℚ)
    (bt : BinomialTest) (m d : ℤ) (p : ℚ) (hd : d ≠ 0) (hm : m ≠ d)
    (hl : dlookup bt.p_values (m, d) = some p) :
    BinomialTest.compute test neglog10 bt m d
      = ((some p, some (if p = 0 then (250 : ℚ) else neglog10 p)), bt) := by
  simp [BinomialTest.compute, hd, hm, hl]

theorem compute_cache_miss (test : ℤ → ℤ → ℚ) (neglog10 : ℚ → ℚ)
    (bt : BinomialTest) (m d : ℤ) (hd : d ≠ 0) (hm : m ≠ d)
    (hl : dlookup bt.p_values (m, d) = none) :
    BinomialTest.compute test neglog10 bt m d
      = ((some (test m d),
          some (if test m d = 0 then (250 : ℚ) else neglog10 (test m d))),
         ⟨bt.expectedErrorRate, dupsert bt.p_values (m, d) (test m d), bt.ncalls + 1⟩) := by
  simp [BinomialTest.compute, hd, hm, hl, dlookup_dupsert]

/-- C3: `BinomialTest.compute` returns (no p-value, no score) at depth 0;
returns exactly (p = 1, score = 0) when the minor count equals a nonzero
depth, without touching the cache or the test; otherwise returns the
cached-or-computed p-value for the pair, scoring 250 when p = 0 and
`-log10 p` otherwise (a cache hit leaves the state — including the test
invocation counter — unchanged, a miss runs the test once and stores the
result); and an immediately repeated call with the same pair returns the
identical result with the identical state, hence without re-running the
test. -/
theorem C3_binomial_compute (test : ℤ → ℤ → ℚ) (neglog10 : ℚ → ℚ)
    (bt : BinomialTest) (m d : ℤ) :
    (d = 0 → BinomialTest.compute test neglog10 bt m d = ((none, none), bt)) ∧
    (d ≠ 0 → m = d →
      BinomialTest.compute test neglog10 bt m d = ((some 1, some 0), bt)) ∧
    (∀ p : ℚ, d ≠ 0 → m ≠ d → dlookup bt.p_values (m, d) = some p →
      BinomialTest.compute test neglog10 bt m d
        = ((some p, some (if p = 0 then (250 : ℚ) else neglog10 p)), bt)) ∧
    (d ≠ 0 → m ≠ d → dlookup bt.p_values (m, d) = none →
      BinomialTest.compute test neglog10 bt m d
        = ((some (test m d),
            some (if test m d = 0 then (250 : ℚ) else neglog10 (test m d))),
           ⟨bt.expectedErrorRate, dupsert bt.p_values (m, d) (test m d),
            bt.ncalls + 1⟩)) ∧
    (∀ r bt2, BinomialTest.compute test neglog10 bt m d = (r, bt2) →
      BinomialTest.compute test neglog10 bt2 m d = (r, bt2)) := by
  refine ⟨compute_depth_zero test neglog10 bt m d,
          compute_all_minor test neglog10 bt m d,
          fun p => compute_cache_hit test neglog10 bt m d p,
          compute_cache_miss test neglog10 bt m d, ?_⟩
  intro r bt2 h
  by_cases hd : d = 0
  · rw [compute_depth_zero test neglog10 bt m d hd] at h
    injection h with h1 h2
    subst h1; subst h2
    exact compute_depth_zero test neglog10 bt m d hd
  · by_cases hm : m = d
    · rw [compute_all_minor test neglog10 bt m d hd hm] at h
      injection h with h1 h2
      subst h1; subst h2
      exact compute_all_minor test neglog10 bt m d hd hm
    · cases hcache : dlookup bt.p_values (m, d) with
      | some p =>
        rw [compute_cache_hit test neglog10 bt m d p hd hm hcache] at h
        injection h with h1 h2
        subst h1; subst h2
        exact compute_cache_hit test neglog10 bt m d p hd hm hcache
      | none =>
        rw [compute_cache_miss test neglog10 bt m d hd hm hcache] at h
        injection h with h1 h2
        subst h1; subst h2
        refine compute_cache_hit test neglog10 _ m d (test m d) hd hm ?_
        simp [dlookup_dupsert]

/-- Witness for C3 at concrete inputs: depth 0; minor = depth = 4; a cache
hit on the pair (1, 5); a cache miss on (1, 5) with a test oracle whose
p-value is 0 (score saturates at 250, the call counter increments); and
the repeated call after that miss, which returns the identical cached
result and state. -/
theorem C3_binomial_compute_witness :
    ((0 : ℤ) = 0 ∧
      BinomialTest.compute (fun _ _ => (0 : ℚ)) (fun q => q + 7)
        ⟨0, [], 0⟩ 3 0 = ((none, none), ⟨0, [], 0⟩)) ∧
    ((4 : ℤ) ≠ 0 ∧ (4 : ℤ) = 4 ∧
      BinomialTest.compute (fun _ _ => (0 : ℚ)) (fun q => q + 7)
        ⟨0, [], 0⟩ 4 4 = ((some 1, some 0), ⟨0, [], 0⟩)) ∧
    ((5 : ℤ) ≠ 0 ∧ (1 : ℤ) ≠ 5 ∧
      dlookup ([((1, 5), (2 : ℚ))] : List ((ℤ × ℤ) × ℚ)) (1, 5) = some 2 ∧
      BinomialTest.compute (fun _ _ => (0 : ℚ)) (fun q => q + 7)
        ⟨0, [((1, 5), 2)], 3⟩ 1 5
        = ((some 2, some (if (2 : ℚ) = 0 then (250 : ℚ) else (2 : ℚ) + 7)),
           ⟨0, [((1, 5), 2)], 3⟩)) ∧
    (dlookup ([] : List ((ℤ × ℤ) × ℚ)) ((1 : ℤ), (5 : ℤ)) = none ∧
      BinomialTest.compute (fun _ _ => (0 : ℚ)) (fun q => q + 7)
        ⟨0, [], 0⟩ 1 5
        = ((some 0, some (if (0 : ℚ) = 0 then (250 : ℚ) else (0 : ℚ) + 7)),
           ⟨0, dupsert ([] : List ((ℤ × ℤ) × ℚ)) (1, 5) 0, 0 + 1⟩)) ∧
    (BinomialTest.compute (fun _ _ => (0 : ℚ)) (fun q => q + 7)
        ⟨0, [((1, 5), 0)], 1⟩ 1 5
        = ((some 0, some 250), ⟨0, [((1, 5), 0)], 1⟩)) := by
  refine ⟨⟨rfl, (C3_binomial_compute _ _ ⟨0, [], 0⟩ 3 0).1 rfl⟩,
          ⟨by decide, rfl,
            (C3_binomial_compute _ _ ⟨0, [], 0⟩ 4 4).2.1 (by decide) rfl⟩,
          ⟨by decide, by decide, by decide,
            (C3_binomial_compute _ _ ⟨0, [((1, 5), 2)], 3⟩ 1 5).2.2.1
              2 (by decide) (by decide) (by decide)⟩,
          ⟨rfl,
            (C3_binomial_compute _ _ ⟨0, [], 0⟩ 1 5).2.2.2.1
              (by decide) (by decide) rfl⟩,
          (C3_binomial_compute (fun _ _ => (0 : ℚ)) (fun q => q + 7)
              ⟨0, [((1, 5), 0)], 1⟩ 1 5).2.2.2.2
            ((some 0, some 250)) ⟨0, [((1, 5), 0)], 1⟩ (by decide)⟩

/-- C9 counterexample: the claim says a real number outside (0,1) is
rejected, but `BinomialTest.__init__` performs only the float type check:
construction with the float 2 — which is not in the open interval (0,1) —
succeeds. -/
theorem C9_out_of_range_accepted :
    BinomialTest.init (PyVal.pfloat 2) = .ok ⟨2, [], 0⟩ ∧
    ¬ ((0 : ℚ) < 2 ∧ (2 : ℚ) < 1) :=
  ⟨rfl, by decide⟩

/-- C9 amended: the constructor fails with `TypeError` exactly when the
supplied rate is not a float; every float is accepted, including floats
outside the open interval (0,1) — no range validation is performed. -/
theorem C9_init_type_check_only (v : PyVal) :
    (initSucceeds v = true ↔ ∃ q : ℚ, v = PyVal.pfloat q) ∧
    (∀ q : ℚ, BinomialTest.init (PyVal.pfloat q) = .ok ⟨q, [], 0⟩) := by
  constructor
  · cases v <;> simp [initSucceeds, BinomialTest.init]
  · intro q; rfl

/-- Witness for C9 at the concrete float 5, also outside (0,1):
construction succeeds. -/
theorem C9_init_witness :
    initSucceeds (PyVal.pfloat 5) = true ∧
    BinomialTest.init (PyVal.pfloat 5) = .ok ⟨5, [], 0⟩ :=
  ⟨(C9_init_type_check_only (PyVal.pfloat 5)).1.mpr ⟨5, rfl⟩,
   (C9_init_type_check_only (PyVal.pfloat 5)).2 5⟩

/-- C5 (code bug, evaluated at the failing input): after `add_roi("r1",
[1])` followed by `add_roi("r1", [2])`, the region's position set has been
reset to {2} (the dead `except KeyError` means the re-add overwrites
instead of unioning), while position 1's inverse region set still contains
"r1": the bidirectional index is inconsistent, with no error raised. -/
theorem C5_readd_breaks_index :
    (add_roi (add_roi ⟨[], []⟩ ("r1") [1]).1 ("r1") [2]).2 = false ∧
    dlookup (add_roi (add_roi ⟨[], []⟩ ("r1") [1]).1 ("r1") [2]).1.roi2psn ("r1")
      = some [2] ∧
    ¬ (1 : ℤ) ∈
      (dlookup (add_roi (add_roi ⟨[], []⟩ ("r1") [1]).1 ("r1") [2]).1.roi2psn
        ("r1")).getD [] ∧
    ("r1") ∈
      (dlookup (add_roi (add_roi ⟨[], []⟩ ("r1") [1]).1 ("r1") [2]).1.psn2roi
        1).getD [] := by decide

/-- C7 counterexample: `add_roi` on the fresh index with positions [1, 0]
raises `ValueError` as claimed, but the index is not left unchanged:
position 1 was inserted into both maps before the zero was reached. -/
theorem C7_partial_update_counterexample :
    (add_roi ⟨[], []⟩ ("r1") [1, 0]).2 = true ∧
    dlookup (add_roi ⟨[], []⟩ ("r1") [1, 0]).1.roi2psn ("r1") = some [1] ∧
    dlookup (add_roi ⟨[], []⟩ ("r1") [1, 0]).1.psn2roi 1 = some [("r1")] := by
  decide

theorem addRoiLoop_zero (roi_name : String) :
    ∀ (ps : List ℤ) (st : RoiState), (0 : ℤ) ∈ ps →
      addRoiLoop st roi_name ps
        = ((addRoiLoop st roi_name (ps.takeWhile (fun p => decide (p ≠ 0)))).1,
           true) := by
  intro ps
  induction ps with
  | nil => intro st h; simp at h
  | cons p rest ih =>
    intro st h
    by_cases hp : p = 0
    · subst hp
      have htw : List.takeWhile (fun p => decide (p ≠ 0)) ((0 : ℤ) :: rest) = [] := by
        rw [List.takeWhile_cons]; simp
      rw [htw]
      simp [addRoiLoop]
    · have hr : (0 : ℤ) ∈ rest := by
        rcases List.mem_cons.mp h with h0 | h0
        · exact absurd h0.symm hp
        · exact h0
      have htw : List.takeWhile (fun p => decide (p ≠ 0)) (p :: rest)
          = p :: List.takeWhile (fun p => decide (p ≠ 0)) rest := by
        rw [List.takeWhile_cons]; simp [hp]
      rw [htw]
      simp only [addRoiLoop, if_neg hp]
      exact ih _ hr

/-- C7 amended: a call to `add_roi` whose positions contain 0 does raise
`ValueError`, but the index is not left unchanged: the region's position
set is first reset to empty, every position preceding the first zero is
inserted into both maps, and the resulting state is exactly the state of a
successful `add_roi` on the prefix before the first zero. -/
theorem C7_zero_raises_partial (st : RoiState) (roi_name : String)
    (ps : List ℤ) (h : (0 : ℤ) ∈ ps) :
    (add_roi st roi_name ps).2 = true ∧
    (add_roi st roi_name ps).1
      = (add_roi st roi_name (ps.takeWhile (fun p => decide (p ≠ 0)))).1 := by
  unfold add_roi
  rw [addRoiLoop_zero roi_name ps _ h]
  exact ⟨rfl, rfl⟩

/-- Witness for C7 at the concrete input [1, 0] on the fresh index. -/
theorem C7_zero_raises_partial_witness :
    (0 : ℤ) ∈ ([1, 0] : List ℤ) ∧
    ((add_roi ⟨[], []⟩ ("r1") [1, 0]).2 = true ∧
     (add_roi ⟨[], []⟩ ("r1") [1, 0]).1
       = (add_roi ⟨[], []⟩ ("r1")
           (([1, 0] : List ℤ).takeWhile (fun p => decide (p ≠ 0)))).1) :=
  ⟨by decide, C7_zero_raises_partial ⟨[], []⟩ ("r1") [1, 0] (by decide)⟩

theorem qsum_const (f : RegionSummary → ℚ) (c : ℚ) :
    ∀ l : List RegionSummary, (∀ r ∈ l, f r = c) → qsum f l = l.length * c := by
  intro l
  induction l with
  | nil => intro _; simp [qsum]
  | cons x xs ih =>
    intro h
    have hx := h x (by simp)
    have hxs : ∀ r ∈ xs, f r = c := fun r hr => h r (by simp [hr])
    show ((x :: xs).map f).sum = (((x :: xs).length : ℕ) : ℚ) * c
    rw [List.map_cons, List.sum_cons, hx,
        show (List.map f xs).sum = qsum f xs from rfl, ih hxs, List.length_cons]
    push_cast
    ring

theorem sortedByMaf_take2_mem {rs : List RegionSummary} {r : RegionSummary}
    (hr : r ∈ (sortedByMaf rs).take 2) : r ∈ rs :=
  (sortBy_perm _ rs).mem_iff.mp (List.take_subset _ _ hr)

theorem sortedByMaf_tail47_mem {rs : List RegionSummary} {r : RegionSummary}
    (hr : r ∈ (sortedByMaf rs).drop ((sortedByMaf rs).length - 47)) : r ∈ rs :=
  (sortBy_perm _ rs).mem_iff.mp (List.drop_subset _ _ hr)

/-- C8: `f_statistics` on a table with fewer than 58 rows reports quality
bad with both scores undefined; with at least 58 rows and a zero F2 or F47
denominator it likewise reports bad with both scores undefined; otherwise
it reports OK with F2 and F47 the nonmajor/total depth ratios over the top
two and bottom 47 regions by mean maf, and for any table whose rows
satisfy `0 ≤ total_nonmajor_depth ≤ total_depth` both ratios lie in
[0, 1]. -/
theorem C8_f_statistics_spec (rs : List RegionSummary) :
    (rs.length < 58 → f_statistics rs = ⟨"bad", none, none⟩) ∧
    (¬ rs.length < 58 → (f2Denominator rs = 0 ∨ f47Denominator rs = 0) →
      f_statistics rs = ⟨"bad", none, none⟩) ∧
    (¬ rs.length < 58 → f2Denominator rs ≠ 0 → f47Denominator rs ≠ 0 →
      (∀ r ∈ rs, 0 ≤ r.total_nonmajor_depth ∧ r.total_nonmajor_depth ≤ r.total_depth) →
      f_statistics rs
        = ⟨"OK", some (f2Numerator rs / f2Denominator rs),
                 some (f47Numerator rs / f47Denominator rs)⟩ ∧
      0 ≤ f2Numerator rs / f2Denominator rs ∧
      f2Numerator rs / f2Denominator rs ≤ 1 ∧
      0 ≤ f47Numerator rs / f47Denominator rs ∧
      f47Numerator rs / f47Denominator rs ≤ 1) := by
  refine ⟨fun h => by simp [f_statistics, h],
          fun h hz => by simp [f_statistics, h, hz], ?_⟩
  intro hlen h2 h47 hbound
  have hb2 : ∀ r ∈ (sortedByMaf rs).take 2,
      0 ≤ r.total_nonmajor_depth ∧ r.total_nonmajor_depth ≤ r.total_depth :=
    fun r hr => hbound r (sortedByMaf_take2_mem hr)
  have hb47 : ∀ r ∈ (sortedByMaf rs).drop ((sortedByMaf rs).length - 47),
      0 ≤ r.total_nonmajor_depth ∧ r.total_nonmajor_depth ≤ r.total_depth :=
    fun r hr => hbound r (sortedByMaf_tail47_mem hr)
  have hnum2 : 0 ≤ f2Numerator rs :=
    qsum_nonneg _ _ (fun r hr => (hb2 r hr).1)
  have hnum47 : 0 ≤ f47Numerator rs :=
    qsum_nonneg _ _ (fun r hr => (hb47 r hr).1)
  have hden2 : 0 ≤ f2Denominator rs :=
    qsum_nonneg _ _ (fun r hr => le_trans (hb2 r hr).1 (hb2 r hr).2)
  have hden47 : 0 ≤ f47Denominator rs :=
    qsum_nonneg _ _ (fun r hr => le_trans (hb47 r hr).1 (hb47 r hr).2)
  have hle2 : f2Numerator rs ≤ f2Denominator rs :=
    qsum_le_qsum _ _ _ (fun r hr => (hb2 r hr).2)
  have hle47 : f47Numerator rs ≤ f47Denominator rs :=
    qsum_le_qsum _ _ _ (fun r hr => (hb47 r hr).2)
  have hpos2 : 0 < f2Denominator rs := lt_of_le_of_ne hden2 (Ne.symm h2)
  have hpos47 : 0 < f47Denominator rs := lt_of_le_of_ne hden47 (Ne.symm h47)
  refine ⟨by simp [f_statistics, hlen, h2, h47], div_nonneg hnum2 hden2,
          (div_le_one hpos2).mpr hle2, div_nonneg hnum47 hden47,
          (div_le_one hpos47).mpr hle47⟩

theorem sortedByMaf_replicate_length (r0 : RegionSummary) (n : ℕ) :
    (sortedByMaf (List.replicate n r0)).length = n := by
  unfold sortedByMaf
  rw [sortBy_length, List.length_replicate]

theorem f2Denominator_replicate (r0 : RegionSummary) :
    f2Denominator (List.replicate 58 r0) = 2 * r0.total_depth := by
  unfold f2Denominator
  rw [qsum_const _ r0.total_depth _ ?_, List.length_take,
      sortedByMaf_replicate_length]
  · norm_num
  · intro r hr
    rw [List.eq_of_mem_replicate (sortedByMaf_take2_mem hr)]

theorem f47Denominator_replicate (r0 : RegionSummary) :
    f47Denominator (List.replicate 58 r0) = 47 * r0.total_depth := by
  unfold f47Denominator
  rw [qsum_const _ r0.total_depth _ ?_, List.length_drop,
      sortedByMaf_replicate_length]
  · norm_num
  · intro r hr
    rw [List.eq_of_mem_replicate (sortedByMaf_tail47_mem hr)]

/-- Witness for C8 at three concrete tables: 57 rows (too few); 58 rows of
zero depth (degenerate denominators); 58 rows of depth one (the OK case). -/
theorem C8_f_statistics_witness :
    ((List.replicate 57 (⟨0, 1, 0⟩ : RegionSummary)).length < 58 ∧
      f_statistics (List.replicate 57 (⟨0, 1, 0⟩ : RegionSummary))
        = ⟨"bad", none, none⟩) ∧
    (¬ (List.replicate 58 (⟨0, 0, 0⟩ : RegionSummary)).length < 58 ∧
      (f2Denominator (List.replicate 58 (⟨0, 0, 0⟩ : RegionSummary)) = 0 ∨
       f47Denominator (List.replicate 58 (⟨0, 0, 0⟩ : RegionSummary)) = 0) ∧
      f_statistics (List.replicate 58 (⟨0, 0, 0⟩ : RegionSummary))
        = ⟨"bad", none, none⟩) ∧
    (¬ (List.replicate 58 (⟨0, 1, 0⟩ : RegionSummary)).length < 58 ∧
      f2Denominator (List.replicate 58 (⟨0, 1, 0⟩ : RegionSummary)) ≠ 0 ∧
      f47Denominator (List.replicate 58 (⟨0, 1, 0⟩ : RegionSummary)) ≠ 0 ∧
      (∀ r ∈ List.replicate 58 (⟨0, 1, 0⟩ : RegionSummary),
        0 ≤ r.total_nonmajor_depth ∧ r.total_nonmajor_depth ≤ r.total_depth) ∧
      (f_statistics (List.replicate 58 (⟨0, 1, 0⟩ : RegionSummary))
        = ⟨"OK",
           some (f2Numerator (List.replicate 58 (⟨0, 1, 0⟩ : RegionSummary)) /
             f2Denominator (List.replicate 58 (⟨0, 1, 0⟩ : RegionSummary))),
           some (f47Numerator (List.replicate 58 (⟨0, 1, 0⟩ : RegionSummary)) /
             f47Denominator (List.replicate 58 (⟨0, 1, 0⟩ : RegionSummary)))⟩ ∧
       0 ≤ f2Numerator (List.replicate 58 (⟨0, 1, 0⟩ : RegionSummary)) /
             f2Denominator (List.replicate 58 (⟨0, 1, 0⟩ : RegionSummary)) ∧
       f2Numerator (List.replicate 58 (⟨0, 1, 0⟩ : RegionSummary)) /
             f2Denominator (List.replicate 58 (⟨0, 1, 0⟩ : RegionSummary)) ≤ 1 ∧
       0 ≤ f47Numerator (List.replicate 58 (⟨0, 1, 0⟩ : RegionSummary)) /
             f47Denominator (List.replicate 58 (⟨0, 1, 0⟩ : RegionSummary)) ∧
       f47Numerator (List.replicate 58 (⟨0, 1, 0⟩ : RegionSummary)) /
             f47Denominator (List.replicate 58 (⟨0, 1, 0⟩ : RegionSummary)) ≤ 1)) := by
  have hz2 : f2Denominator (List.replicate 58 (⟨0, 0, 0⟩ : RegionSummary)) = 0 := by
    rw [f2Denominator_replicate]; norm_num
  have ho2 : f2Denominator (List.replicate 58 (⟨0, 1, 0⟩ : RegionSummary)) ≠ 0 := by
    rw [f2Denominator_replicate]; norm_num
  have ho47 : f47Denominator (List.replicate 58 (⟨0, 1, 0⟩ : RegionSummary)) ≠ 0 := by
    rw [f47Denominator_replicate]; norm_num
  have hbound : ∀ r ∈ List.replicate 58 (⟨0, 1, 0⟩ : RegionSummary),
      0 ≤ r.total_nonmajor_depth ∧ r.total_nonmajor_depth ≤ r.total_depth := by
    intro r hr
    rw [List.eq_of_mem_replicate hr]
    constructor <;> norm_num
  exact ⟨⟨by decide,
          (C8_f_statistics_spec (List.replicate 57 ⟨0, 1, 0⟩)).1 (by decide)⟩,
         ⟨by decide, Or.inl hz2,
          (C8_f_statistics_spec (List.replicate 58 ⟨0, 0, 0⟩)).2.1 (by decide)
            (Or.inl hz2)⟩,
         ⟨by decide, ho2, ho47, hbound,
          (C8_f_statistics_spec (List.replicate 58 ⟨0, 1, 0⟩)).2.2 (by decide)
            ho2 ho47 hbound⟩⟩

/-! Lemmas about the mixture-marker suppression and write passes. -/

theorem map_fst_cond_dupsert (c : Prop) [Decidable c] (d : List (ℤ × Char))
    (k : ℤ) (v : Char) (h : k ∈ d.map Prod.fst) :
    ((if c then dupsert d k v else d).map Prod.fst) = d.map Prod.fst := by
  split
  · exact map_fst_dupsert_of_mem v h
  · rfl

theorem dlookup_cond_dupsert_ne (c : Prop) [Decidable c] (d : List (ℤ × Char))
    (k : ℤ) (v : Char) (k2 : ℤ) (h : k2 ≠ k) :
    dlookup (if c then dupsert d k v else d) k2 = dlookup d k2 := by
  split
  · rw [dlookup_dupsert, if_neg h]
  · rfl

theorem suppressStep_map_fst (cc : ℤ) (bases : List ℤ) (d : List (ℤ × Char))
    (i : ℕ) (h : bases.getD i 0 ∈ d.map Prod.fst) :
    (suppressStep cc bases d i).map Prod.fst = d.map Prod.fst := by
  simp only [suppressStep]
  have h1 : ((if bases.getD i 0 - bases.getD (i - 1) 0 ≤ cc
      then dupsert d (bases.getD i 0) 'N' else d).map Prod.fst) = d.map Prod.fst :=
    map_fst_cond_dupsert _ d _ _ h
  rw [map_fst_cond_dupsert _ _ _ _ (by rw [h1]; exact h), h1]

theorem suppressStep_lookup_ne (cc : ℤ) (bases : List ℤ) (d : List (ℤ × Char))
    (i : ℕ) (k : ℤ) (h : k ≠ bases.getD i 0) :
    dlookup (suppressStep cc bases d i) k = dlookup d k := by
  simp only [suppressStep]
  rw [dlookup_cond_dupsert_ne _ _ _ _ _ h, dlookup_cond_dupsert_ne _ _ _ _ _ h]

theorem foldl_suppress_map_fst (cc : ℤ) (bases : List ℤ) :
    ∀ (is : List ℕ) (d : List (ℤ × Char)),
      (∀ i ∈ is, bases.getD i 0 ∈ d.map Prod.fst) →
      ((List.foldl (suppressStep cc bases) d is).map Prod.fst) = d.map Prod.fst := by
  intro is
  induction is with
  | nil => intro d _; rfl
  | cons i is ih =>
    intro d h
    have hstep := suppressStep_map_fst cc bases d i (h i (by simp))
    rw [List.foldl_cons,
        ih (suppressStep cc bases d i)
          (fun j hj => by rw [hstep]; exact h j (by simp [hj])),
        hstep]

theorem foldl_suppress_lookup (cc : ℤ) (bases : List ℤ) (k : ℤ) :
    ∀ (is : List ℕ) (d : List (ℤ × Char)),
      (∀ i ∈ is, k ≠ bases.getD i 0) →
      dlookup (List.foldl (suppressStep cc bases) d is) k = dlookup d k := by
  intro is
  induction is with
  | nil => intro d _; rfl
  | cons i is ih =>
    intro d h
    rw [List.foldl_cons, ih _ (fun j hj => h j (by simp [hj])),
        suppressStep_lookup_ne cc bases d i k (h i (by simp))]

theorem mem_mmBases (d : List (ℤ × Char)) (x : ℤ) :
    x ∈ mmBases d ↔ x ∈ d.map Prod.fst :=
  (sortBy_perm _ _).mem_iff

theorem mmBases_length (d : List (ℤ × Char)) : (mmBases d).length = d.length := by
  unfold mmBases
  rw [sortBy_length, List.length_map]

theorem mmBases_getD_mem (d : List (ℤ × Char)) (i : ℕ)
    (h : i < (mmBases d).length) : (mmBases d).getD i 0 ∈ d.map Prod.fst := by
  rw [List.getD_eq_get _ _ h]
  exact (mem_mmBases _ _).mp (List.get_mem _ _ _)

theorem mmBases_getD_ne {d : List (ℤ × Char)} (hnd : (d.map Prod.fst).Nodup)
    {i j : ℕ} (hi : i < (mmBases d).length) (hj : j < (mmBases d).length)
    (hne : i ≠ j) : (mmBases d).getD i 0 ≠ (mmBases d).getD j 0 := by
  rw [List.getD_eq_get _ _ hi, List.getD_eq_get _ _ hj]
  intro he
  have hnodup : (mmBases d).Nodup := sortBy_nodup _ hnd
  exact hne (congrArg Fin.val ((List.Nodup.get_inj_iff hnodup).mp he))

theorem writeFold_spec (d2 : List (ℤ × Char)) (bases : List ℤ) (len : ℕ) :
    ∀ (is : List ℕ) (s : List Char), s.length = len →
      (∀ i ∈ is, (dlookup d2 (bases.getD i 0)).isSome = true ∧
        0 ≤ bases.getD i 0 ∧ bases.getD i 0 < (len : ℤ)) →
      ∃ s2, is.foldlM (writeStep d2 bases) s = some s2 ∧ s2.length = len ∧
        (∀ j : ℕ, (∀ i ∈ is, bases.getD i 0 ≠ (j : ℤ)) →
          s2.get? j = s.get? j) := by
  intro is
  induction is with
  | nil => intro s hs _; exact ⟨s, rfl, hs, fun _ _ => rfl⟩
  | cons i is ih =>
    intro s hs h
    obtain ⟨hsome, hge, hlt⟩ := h i (by simp)
    obtain ⟨c, hc⟩ := Option.isSome_iff_exists.mp hsome
    have hset : writeStep d2 bases s i = some (s.set (bases.getD i 0).toNat c) := by
      simp only [writeStep, hc]
      unfold pySet
      rw [if_pos ⟨hge, by rw [hs]; exact hlt⟩]
    have hs2 : (s.set (bases.getD i 0).toNat c).length = len := by
      rw [List.length_set]; exact hs
    obtain ⟨s2, hfold, hlen, hget⟩ :=
      ih (s.set (bases.getD i 0).toNat c) hs2 (fun j hj => h j (by simp [hj]))
    refine ⟨s2, ?_, hlen, ?_⟩
    · rw [List.foldlM_cons, hset]
      exact hfold
    · intro j hj
      rw [hget j (fun i2 hi2 => hj i2 (by simp [hi2]))]
      have hneN : (bases.getD i 0).toNat ≠ j := by
        intro he
        apply hj i (by simp)
        rw [← he, Int.toNat_of_nonneg hge]
      exact List.get?_set_ne _ _ hneN

/-- C2: in `mark_mixed`, for every collected candidate dictionary (with
distinct in-range candidate positions): the write/suppression passes
succeed; the first and last candidates of the sorted order keep their
codes untouched by the clustering-suppression pass; the output sequence
differs from the input only at interior candidate positions (indices
1..n-2 of the sorted list); and every entry of the returned table has a
code other than `N` and a position greater than 0. -/
theorem C2_boundary_and_filter (cc : Option ℤ) (d : List (ℤ × Char))
    (seq : List Char) (hnd : (d.map Prod.fst).Nodup)
    (hrange : ∀ k ∈ d.map Prod.fst, 0 ≤ k ∧ k < (seq.length : ℤ)) :
    ∃ seq2,
      mark_mixed_post cc seq d = some (mmDf (mmSuppressed cc d), seq2) ∧
      seq2.length = seq.length ∧
      (0 < (mmBases d).length →
        dlookup (mmSuppressed cc d) ((mmBases d).getD 0 0)
          = dlookup d ((mmBases d).getD 0 0) ∧
        dlookup (mmSuppressed cc d) ((mmBases d).getD ((mmBases d).length - 1) 0)
          = dlookup d ((mmBases d).getD ((mmBases d).length - 1) 0)) ∧
      (∀ j : ℕ,
        (∀ i ∈ List.range' 1 ((mmBases d).length - 2),
          (mmBases d).getD i 0 ≠ (j : ℤ)) →
        seq2.get? j = seq.get? j) ∧
      (∀ e ∈ mmDf (mmSuppressed cc d), e.2 ≠ 'N' ∧ 0 < e.1) := by
  have hIlt : ∀ i ∈ List.range' 1 ((mmBases d).length - 2),
      i < (mmBases d).length ∧ 1 ≤ i ∧ i ≠ (mmBases d).length - 1 := by
    intro i hi
    rw [List.mem_range'_1] at hi
    omega
  have hkeysI : ∀ i ∈ List.range' 1 ((mmBases d).length - 2),
      (mmBases d).getD i 0 ∈ d.map Prod.fst :=
    fun i hi => mmBases_getD_mem d i (hIlt i hi).1
  have hkeys2 : (mmSuppressed cc d).map Prod.fst = d.map Prod.fst := by
    cases cc with
    | none => rfl
    | some c => exact foldl_suppress_map_fst c (mmBases d) _ d hkeysI
  have hargs : ∀ i ∈ List.range' 1 ((mmBases d).length - 2),
      (dlookup (mmSuppressed cc d) ((mmBases d).getD i 0)).isSome = true ∧
      0 ≤ (mmBases d).getD i 0 ∧ (mmBases d).getD i 0 < (seq.length : ℤ) := by
    intro i hi
    have hk := hkeysI i hi
    refine ⟨?_, (hrange _ hk).1, (hrange _ hk).2⟩
    rw [dlookup_isSome_iff, hkeys2]
    exact hk
  obtain ⟨s2, hfold, hlen, hget⟩ :=
    writeFold_spec (mmSuppressed cc d) (mmBases d) seq.length _ seq rfl hargs
  refine ⟨s2, ?_, hlen, ?_, hget, ?_⟩
  · unfold mark_mixed_post
    rw [hfold]
  · intro hpos
    cases cc with
    | none => exact ⟨rfl, rfl⟩
    | some c =>
      constructor
      · refine foldl_suppress_lookup c (mmBases d) _ _ d ?_
        intro i hi
        exact mmBases_getD_ne hnd hpos (hIlt i hi).1
          (by have := (hIlt i hi).2.1; omega)
      · refine foldl_suppress_lookup c (mmBases d) _ _ d ?_
        intro i hi
        exact mmBases_getD_ne hnd (by omega) (hIlt i hi).1 (hIlt i hi).2.2.symm
  · intro e he
    unfold mmDf at he
    by_cases hd2 : 0 < (mmSuppressed cc d).length
    · rw [if_pos hd2] at he
      obtain ⟨he1, he2⟩ := List.mem_filter.mp he
      obtain ⟨_, he4⟩ := List.mem_filter.mp he1
      constructor
      · simpa using he4
      · simpa using he2
    · rw [if_neg hd2] at he
      have hz : mmSuppressed cc d = [] := List.length_eq_zero.mp (by omega)
      rw [hz] at he
      simp at he

/-- Witness for C2 at a concrete dictionary of three candidates (positions
2, 4, 9, clustering cutoff 3) over a twelve-base sequence. -/
theorem C2_boundary_and_filter_witness :
    (([((2 : ℤ), 'r'), (4, 'y'), (9, 'K')].map Prod.fst).Nodup) ∧
    (∀ k ∈ [((2 : ℤ), 'r'), (4, 'y'), (9, 'K')].map Prod.fst,
      0 ≤ k ∧ k < ((List.replicate 12 'A').length : ℤ)) ∧
    (∃ seq2,
      mark_mixed_post (some 3) (List.replicate 12 'A')
          [((2 : ℤ), 'r'), (4, 'y'), (9, 'K')]
        = some (mmDf (mmSuppressed (some 3) [((2 : ℤ), 'r'), (4, 'y'), (9, 'K')]),
                seq2) ∧
      seq2.length = (List.replicate 12 'A').length ∧
      (0 < (mmBases [((2 : ℤ), 'r'), (4, 'y'), (9, 'K')]).length →
        dlookup (mmSuppressed (some 3) [((2 : ℤ), 'r'), (4, 'y'), (9, 'K')])
            ((mmBases [((2 : ℤ), 'r'), (4, 'y'), (9, 'K')]).getD 0 0)
          = dlookup [((2 : ℤ), 'r'), (4, 'y'), (9, 'K')]
            ((mmBases [((2 : ℤ), 'r'), (4, 'y'), (9, 'K')]).getD 0 0) ∧
        dlookup (mmSuppressed (some 3) [((2 : ℤ), 'r'), (4, 'y'), (9, 'K')])
            ((mmBases [((2 : ℤ), 'r'), (4, 'y'), (9, 'K')]).getD
              ((mmBases [((2 : ℤ), 'r'), (4, 'y'), (9, 'K')]).length - 1) 0)
          = dlookup [((2 : ℤ), 'r'), (4, 'y'), (9, 'K')]
            ((mmBases [((2 : ℤ), 'r'), (4, 'y'), (9, 'K')]).getD
              ((mmBases [((2 : ℤ), 'r'), (4, 'y'), (9, 'K')]).length - 1) 0)) ∧
      (∀ j : ℕ,
        (∀ i ∈ List.range' 1
            ((mmBases [((2 : ℤ), 'r'), (4, 'y'), (9, 'K')]).length - 2),
          (mmBases [((2 : ℤ), 'r'), (4, 'y'), (9, 'K')]).getD i 0 ≠ (j : ℤ)) →
        seq2.get? j = (List.replicate 12 'A').get? j) ∧
      (∀ e ∈ mmDf (mmSuppressed (some 3) [((2 : ℤ), 'r'), (4, 'y'), (9, 'K')]),
        e.2 ≠ 'N' ∧ 0 < e.1)) :=
  ⟨by decide, by decide,
   C2_boundary_and_filter (some 3) [((2 : ℤ), 'r'), (4, 'y'), (9, 'K')]
     (List.replicate 12 'A') (by decide) (by decide)⟩

/-- C4 counterexample: a call table with exactly two qualifying candidates
whose 0-indexed positions (10 and 20) differ by exactly the configured
clustering distance (10).  The claim says both are downgraded to `N`; the
code's suppression loop `range(1, len(bases) - 1)` is empty for two
candidates, so both keep their ambiguity codes (`m` and `k`), the sequence
is untouched, and both calls appear in the returned table. -/
theorem C4_two_at_distance_not_downgraded :
    mark_mixed_model ⟨5, 0, some 10, 0⟩ (fun _ _ => 1) (fun q => q)
        (List.replicate 30 'A')
        [⟨11, some 1, some 10, 5, 10, 6, 4, 0, 0⟩,
         ⟨21, some 1, some 10, 5, 10, 0, 0, 6, 4⟩]
      = some ([((10 : ℤ), 'm'), (20, 'k')], List.replicate 30 'A') ∧
    (20 : ℤ) - 10 = 10 ∧ ¬ 'm' = 'N' ∧ ¬ 'k' = 'N' := by decide

/-- C4 amended: for every candidate dictionary with exactly two entries —
in particular the one collected from a call table with exactly two
qualifying candidates at exactly the clustering distance — the suppression
loop runs over an empty interior index range, so neither candidate is
downgraded (the dictionary is unchanged) and the sequence-update loop
writes nothing. -/
theorem C4_two_candidates_unchanged (cc : Option ℤ) (d : List (ℤ × Char))
    (seq : List Char) (h2 : d.length = 2) :
    mmSuppressed cc d = d ∧
    mark_mixed_post cc seq d = some (mmDf d, seq) := by
  have hlen : (mmBases d).length = 2 := by rw [mmBases_length, h2]
  have hrange : List.range' 1 ((mmBases d).length - 2) = [] := by
    rw [hlen]
    rfl
  have hsup : mmSuppressed cc d = d := by
    cases cc with
    | none => rfl
    | some c =>
      show List.foldl (suppressStep c (mmBases d)) d
          (List.range' 1 ((mmBases d).length - 2)) = d
      rw [hrange]
      rfl
  refine ⟨hsup, ?_⟩
  unfold mark_mixed_post
  rw [hrange, hsup]
  rfl

/-- Witness for C4 at the concrete two-candidate dictionary produced by the
counterexample table. -/
theorem C4_two_candidates_unchanged_witness :
    ([((10 : ℤ), 'm'), (20, 'k')] : List (ℤ × Char)).length = 2 ∧
    (mmSuppressed (some 10) [((10 : ℤ), 'm'), (20, 'k')]
        = [((10 : ℤ), 'm'), (20, 'k')] ∧
     mark_mixed_post (some 10) (List.replicate 5 'A') [((10 : ℤ), 'm'), (20, 'k')]
        = some (mmDf [((10 : ℤ), 'm'), (20, 'k')], List.replicate 5 'A')) :=
  ⟨rfl, C4_two_candidates_unchanged (some 10) [((10 : ℤ), 'm'), (20, 'k')]
    (List.replicate 5 'A') rfl⟩

/-! Lemmas about the scan loop. -/

theorem catchUp_spec (pos : ℤ) (h : pos < SENTINEL) :
    ∀ q : List ℤ,
      catchUp pos q
        = .ok ((q.dropWhile (fun x => decide (x ≤ pos))).tail,
               (q.dropWhile (fun x => decide (x ≤ pos))).headD SENTINEL) ∧
      pos < (q.dropWhile (fun x => decide (x ≤ pos))).headD SENTINEL := by
  intro q
  induction q with
  | nil =>
    constructor
    · show (if SENTINEL ≤ pos then Except.error ScanErr.hang
            else Except.ok (([] : List ℤ), SENTINEL)) = _
      rw [if_neg (not_le.mpr h)]
      rfl
    · exact h
  | cons x rest ih =>
    by_cases hx : x ≤ pos
    · have hdw : (x :: rest).dropWhile (fun x => decide (x ≤ pos))
          = rest.dropWhile (fun x => decide (x ≤ pos)) := by
        rw [List.dropWhile_cons]
        simp [hx]
      constructor
      · show (if x ≤ pos then catchUp pos rest else .ok (rest, x)) = _
        rw [if_pos hx, hdw]
        exact ih.1
      · rw [hdw]
        exact ih.2
    · have hdw : (x :: rest).dropWhile (fun x => decide (x ≤ pos)) = x :: rest := by
        rw [List.dropWhile_cons]
        simp [hx]
      constructor
      · show (if x ≤ pos then catchUp pos rest else .ok (rest, x)) = _
        rw [if_neg hx, hdw]
        rfl
      · rw [hdw]
        exact not_le.mp hx

theorem processLine_no_match (cfg : ScanCfg) (test : ℤ → ℤ → ℚ)
    (neglog10 : ℚ → ℚ) (psn2roi : List (ℤ × List String)) (st : ScanState)
    (line : Str) (hwf : lineWF line = true)
    (habs : ∀ p : ℤ, linePos line = some p → ¬ p ∈ psn2roi.map Prod.fst)
    (hinv : ScanInv (psn2roi.map Prod.fst) st) :
    ∃ st2, processLine cfg test neglog10 psn2roi st line = .ok st2 ∧
      ScanInv (psn2roi.map Prod.fst) st2 := by
  obtain ⟨hrows, hbroke, hnow, hq, hgw⟩ := hinv
  unfold processLine
  rw [if_neg (by rw [hbroke]; simp : ¬ st.broke = true)]
  by_cases hh : line.head? = some '#'
  · rw [if_pos hh]
    exact ⟨st, rfl, hrows, hbroke, hnow, hq, hgw⟩
  · rw [if_neg hh]
    by_cases hindel : containsSub INDEL line = true
    · rw [if_pos hindel]
      exact ⟨st, rfl, hrows, hbroke, hnow, hq, hgw⟩
    · rw [if_neg hindel]
      unfold lineWF at hwf
      rw [if_neg hh, if_neg hindel] at hwf
      unfold linePos at habs
      rw [if_neg hh, if_neg hindel] at habs
      by_cases hlen : (pySplitWs line).length = 10
      · rw [if_pos hlen] at hwf habs ⊢
        cases hp : parsePyInt ((pySplitWs line).getD 1 []) with
        | none => rw [hp] at hwf; simp at hwf
        | some pos =>
          rw [hp] at hwf habs
          simp only [decide_eq_true_eq] at hwf
          have hnotin : ¬ pos ∈ psn2roi.map Prod.fst := habs pos rfl
          by_cases hcatch : st.soughtNow < pos
          · obtain ⟨hcu, hgt⟩ := catchUp_spec pos hwf st.sought
            simp only [if_pos hcatch, hcu]
            rw [if_neg (ne_of_lt hgt)]
            refine ⟨_, rfl, hrows, hbroke, ?_, ?_, ?_⟩
            · cases hdw : st.sought.dropWhile (fun x => decide (x ≤ pos)) with
              | nil => right; rfl
              | cons y t =>
                left
                apply hq y
                have hym : y ∈ List.dropWhile (fun x => decide (x ≤ pos)) st.sought := by
                  rw [hdw]
                  simp
                exact (List.dropWhile_sublist (fun x => decide (x ≤ pos))).mem hym
            · intro x hx
              refine hq x (((List.tail_sublist _).trans
                (List.dropWhile_sublist _)).mem hx)
            · cases hw : st.warned with
              | true => rw [hw] at hgw; simp [hgw]
              | false => rw [hw] at hgw; simp [hgw]
          · simp only [if_neg hcatch]
            have hne : ¬ pos = st.soughtNow := by
              intro he
              rcases hnow with hmem | hsent
              · exact hnotin (he ▸ hmem)
              · rw [← he] at hsent
                exact absurd (hsent ▸ hwf) (lt_irrefl SENTINEL)
            rw [if_neg hne]
            exact ⟨st, rfl, hrows, hbroke, hnow, hq, hgw⟩
      · rw [if_neg hlen] at hwf
        simp at hwf

theorem scanLines_no_match (cfg : ScanCfg) (test : ℤ → ℤ → ℚ)
    (neglog10 : ℚ → ℚ) (psn2roi : List (ℤ × List String)) :
    ∀ (lines : List Str) (st : ScanState),
      (∀ l ∈ lines, lineWF l = true) →
      (∀ l ∈ lines, ∀ p : ℤ, linePos l = some p → ¬ p ∈ psn2roi.map Prod.fst) →
      ScanInv (psn2roi.map Prod.fst) st →
      ∃ st2, scanLines cfg test neglog10 psn2roi lines st = .ok st2 ∧
        ScanInv (psn2roi.map Prod.fst) st2 := by
  intro lines
  induction lines with
  | nil => intro st _ _ hinv; exact ⟨st, rfl, hinv⟩
  | cons l ls ih =>
    intro st hwf habs hinv
    obtain ⟨st2, hl, hinv2⟩ := processLine_no_match cfg test neglog10 psn2roi st l
      (hwf l (by simp)) (habs l (by simp)) hinv
    obtain ⟨st3, hls, hinv3⟩ := ih st2 (fun l2 hl2 => hwf l2 (by simp [hl2]))
      (fun l2 hl2 => habs l2 (by simp [hl2])) hinv2
    refine ⟨st3, ?_, hinv3⟩
    show (match processLine cfg test neglog10 psn2roi st l with
          | Except.error e => (Except.error e : Except ScanErr ScanState)
          | Except.ok st2 => scanLines cfg test neglog10 psn2roi ls st2)
        = Except.ok st3
    rw [hl]
    exact hls

/-- C1: during a scan, when the current line position `pos` has overtaken
the sought position, the catch-up loop discards sought positions until the
next one is strictly greater than `pos` (the first queue element above
`pos`, or the sentinel when the queue runs out), provided `pos` is below
the sentinel; and for every scan over well-formed lines none of whose
positions is a sought position (all gaps), and an untruncated stream, the
scan returns success with a result table of zero rows, having emitted at
most one gap warning. -/
theorem C1_catchup_and_all_gaps :
    (∀ (q : List ℤ) (pos : ℤ), pos < SENTINEL →
      catchUp pos q
        = .ok ((q.dropWhile (fun x => decide (x ≤ pos))).tail,
               (q.dropWhile (fun x => decide (x ≤ pos))).headD SENTINEL) ∧
      pos < (q.dropWhile (fun x => decide (x ≤ pos))).headD SENTINEL) ∧
    (∀ (cfg : ScanCfg) (test : ℤ → ℤ → ℚ) (neglog10 : ℚ → ℚ)
       (expectedErrorRate : ℚ) (psn2roi : List (ℤ × List String))
       (lines : List Str),
      lines.all lineWF = true →
      (lines.all (fun l =>
        match linePos l with
        | some p => decide (¬ p ∈ psn2roi.map Prod.fst)
        | none => true)) = true →
      ∃ res, runParse cfg test neglog10 expectedErrorRate psn2roi lines false
          = .ok res ∧
        res.success = true ∧ res.bases = some [] ∧ res.gapWarnings ≤ 1) := by
  constructor
  · intro q pos h
    exact catchUp_spec pos h q
  · intro cfg test neglog10 rate psn2roi lines hwfb habsb
    have hwf : ∀ l ∈ lines, lineWF l = true := by
      intro l hl
      exact List.all_eq_true.mp hwfb l hl
    have habs : ∀ l ∈ lines, ∀ p : ℤ, linePos l = some p →
        ¬ p ∈ psn2roi.map Prod.fst := by
      intro l hl p hp
      have hb := List.all_eq_true.mp habsb l hl
      rw [hp] at hb
      simpa using hb
    cases hkeys : sortBy (fun a b => decide (a ≤ b)) (psn2roi.map Prod.fst) with
    | nil =>
      refine ⟨⟨true, some [], 0⟩, ?_, rfl, rfl, Nat.zero_le 1⟩
      unfold runParse
      rw [hkeys]
    | cons k krest =>
      have hperm := sortBy_perm (fun a b : ℤ => decide (a ≤ b)) (psn2roi.map Prod.fst)
      rw [hkeys] at hperm
      have hinv0 : ScanInv (psn2roi.map Prod.fst)
          ⟨krest, k, false, 0, [], ⟨rate, [], 0⟩, false⟩ := by
        refine ⟨rfl, rfl, Or.inl ?_, ?_, rfl⟩
        · exact hperm.mem_iff.mp (by simp)
        · intro x hx
          exact hperm.mem_iff.mp (by simp [hx])
      obtain ⟨st2, hscan, hinv2⟩ := scanLines_no_match cfg test neglog10 psn2roi
        lines ⟨krest, k, false, 0, [], ⟨rate, [], 0⟩, false⟩ hwf habs hinv0
      obtain ⟨hrows, hbroke, _, _, hgw⟩ := hinv2
      refine ⟨⟨true, some st2.rows, st2.gapWarnings⟩, ?_, rfl, by rw [hrows], ?_⟩
      · unfold runParse
        rw [hkeys]
        show (match scanLines cfg test neglog10 psn2roi lines
                ⟨krest, k, false, 0, [], ⟨rate, [], 0⟩, false⟩ with
              | .error e => .error e
              | .ok st =>
                if st.broke then
                  Except.ok (⟨true, some st.rows, st.gapWarnings⟩ : ParseRes)
                else if (false : Bool) then
                  Except.ok (⟨false, none, st.gapWarnings⟩ : ParseRes)
                else Except.ok (⟨true, some st.rows, st.gapWarnings⟩ : ParseRes))
            = Except.ok (⟨true, some st2.rows, st2.gapWarnings⟩ : ParseRes)
        rw [hscan]
        show (if st2.broke then
                Except.ok (⟨true, some st2.rows, st2.gapWarnings⟩ : ParseRes)
              else if (false : Bool) then
                Except.ok (⟨false, none, st2.gapWarnings⟩ : ParseRes)
              else Except.ok (⟨true, some st2.rows, st2.gapWarnings⟩ : ParseRes))
            = Except.ok (⟨true, some st2.rows, st2.gapWarnings⟩ : ParseRes)
        rw [hbroke]
        simp
      · show st2.gapWarnings ≤ 1
        rw [hgw]
        cases st2.warned <;> simp

/-- Witness for C1: the catch-up part at queue [2, 7] and position 3 (it
discards 2 and stops at 7 > 3), and the scan part on a region at position
5 scanned against records at positions 3 and 7 only (position 5 is absent:
the line at 7 overtakes it, triggering catch-up), which succeeds with zero
rows and at most one gap warning. -/
theorem C1_catchup_and_all_gaps_witness :
    ((3 : ℤ) < SENTINEL ∧
     (catchUp 3 [2, 7]
        = .ok ((([2, 7] : List ℤ).dropWhile (fun x => decide (x ≤ (3 : ℤ)))).tail,
               (([2, 7] : List ℤ).dropWhile
                 (fun x => decide (x ≤ (3 : ℤ)))).headD SENTINEL) ∧
      (3 : ℤ) < (([2, 7] : List ℤ).dropWhile
        (fun x => decide (x ≤ (3 : ℤ)))).headD SENTINEL)) ∧
    (([("chrom 3 id A C 30 PASS BaseCounts4=1,0,0,0 GT 0".toList),
       ("chrom 7 id A C 30 PASS BaseCounts4=1,0,0,0 GT 0".toList)].all lineWF
        = true) ∧
     (([("chrom 3 id A C 30 PASS BaseCounts4=1,0,0,0 GT 0".toList),
        ("chrom 7 id A C 30 PASS BaseCounts4=1,0,0,0 GT 0".toList)].all (fun l =>
       match linePos l with
       | some p => decide (¬ p ∈ ([((5 : ℤ), ["r1"])].map Prod.fst))
       | none => true)) = true) ∧
     ∃ res,
       runParse ⟨("BaseCounts4".toList), 0, true⟩ (fun _ _ => (1 : ℚ))
           (fun q => q) 0 [((5 : ℤ), ["r1"])]
           [("chrom 3 id A C 30 PASS BaseCounts4=1,0,0,0 GT 0".toList),
            ("chrom 7 id A C 30 PASS BaseCounts4=1,0,0,0 GT 0".toList)] false
         = .ok res ∧
       res.success = true ∧ res.bases = some [] ∧ res.gapWarnings ≤ 1) :=
  ⟨⟨by decide, C1_catchup_and_all_gaps.1 [2, 7] 3 (by decide)⟩,
   ⟨by decide, by decide,
    C1_catchup_and_all_gaps.2 ⟨("BaseCounts4".toList), 0, true⟩
      (fun _ _ => (1 : ℚ)) (fun q => q) 0 [((5 : ℤ), ["r1"])]
      [("chrom 3 id A C 30 PASS BaseCounts4=1,0,0,0 GT 0".toList),
       ("chrom 7 id A C 30 PASS BaseCounts4=1,0,0,0 GT 0".toList)]
      (by decide) (by decide)⟩⟩

/-- C6 (code bug, evaluated at concrete inputs): on a truncated stream
`_parse` yields success = false with no table built, and on an untruncated
scan it yields success = true — but the public `parse` method discards the
boolean returned by `_parse` and falls off its end, returning None in both
cases, so the caller cannot distinguish an aborted scan from a valid scan
with zero matches through the documented True/False return value. -/
theorem C6_parse_discards_result :
    runParse ⟨("BaseCounts4".toList), 0, true⟩ (fun _ _ => (1 : ℚ)) (fun q => q)
        0 [((5 : ℤ), ["r1"])] [] true = .ok ⟨false, none, 0⟩ ∧
    parse ⟨("BaseCounts4".toList), 0, true⟩ (fun _ _ => (1 : ℚ)) (fun q => q)
        0 [((5 : ℤ), ["r1"])] [] true = .ok none ∧
    runParse ⟨("BaseCounts4".toList), 0, true⟩ (fun _ _ => (1 : ℚ)) (fun q => q)
        0 [((5 : ℤ), ["r1"])] [] false = .ok ⟨true, some [], 0⟩ ∧
    parse ⟨("BaseCounts4".toList), 0, true⟩ (fun _ _ => (1 : ℚ)) (fun q => q)
        0 [((5 : ℤ), ["r1"])] [] false = .ok none :=
  ⟨rfl, rfl, rfl, rfl⟩

/-- C10: every line containing the character substring INDEL anywhere in
the raw line is skipped entirely — the scan state is returned unchanged,
so the line contributes no rows and does not advance the sought queue —
regardless of which column the substring appears in, because the
membership test `"INDEL" in line` runs on the whole raw line before any
field is parsed. -/
theorem C10_indel_anywhere_skipped (cfg : ScanCfg) (test : ℤ → ℤ → ℚ)
    (neglog10 : ℚ → ℚ) (psn2roi : List (ℤ × List String)) (st : ScanState)
    (line : Str) (h : containsSub INDEL line = true) :
    processLine cfg test neglog10 psn2roi st line = .ok st := by
  unfold processLine
  by_cases hb : st.broke = true
  · rw [if_pos hb]
  · rw [if_neg hb]
    by_cases hh : line.head? = some '#'
    · rw [if_pos hh]
    · rw [if_neg hh, if_pos h]

/-- Witness for C10: a line whose chromosome column is `chrINDEL2` — not
an indel record — at position 5, exactly the position being sought: it is
still skipped and the state (including the sought cursor) is unchanged. -/
theorem C10_indel_anywhere_skipped_witness :
    containsSub INDEL
        ("chrINDEL2 5 id A C 30 PASS BaseCounts4=9,1,0,0 GT 0".toList) = true ∧
    processLine ⟨("BaseCounts4".toList), 0, true⟩ (fun _ _ => (1 : ℚ))
        (fun q => q) [((5 : ℤ), ["r1"])] ⟨[], 5, false, 0, [], ⟨0, [], 0⟩, false⟩
        ("chrINDEL2 5 id A C 30 PASS BaseCounts4=9,1,0,0 GT 0".toList)
      = .ok ⟨[], 5, false, 0, [], ⟨0, [], 0⟩, false⟩ :=
  ⟨by decide,
   C10_indel_anywhere_skipped ⟨("BaseCounts4".toList), 0, true⟩
     (fun _ _ => (1 : ℚ)) (fun q => q) [((5 : ℤ), ["r1"])]
     ⟨[], 5, false, 0, [], ⟨0, [], 0⟩, false⟩
     ("chrINDEL2 5 id A C 30 PASS BaseCounts4=9,1,0,0 GT 0".toList)
     (by decide)⟩

end VCFMIX
